import Mathlib

/-!
# Shallow embedding of the ChipSync transaction participant

This file embeds the core of the ChipSync library — the per-node transaction
participant state machine found in `src/transaction/record.ts`,
`src/transaction/participant-state.ts` and `src/transaction/participant.ts` —
and proves properties of the embedded code.

Modelling conventions:
* JavaScript strings are `String`; timestamps (integer milliseconds, compared
  with `<`/`<=`) are `Int`; `Date.now()` is the field `Env.now`, fixed for the
  duration of one call.
* The opaque `payload : any` is only ever observed through `JSON.stringify`,
  which is deterministic, so a record's payload is modelled directly by its
  JSON serialization (a `String`).
* `JSON.stringify` applied to the structured `topology` and to `Signature`
  objects is modelled by explicit encoders (`jsonTopology`, `jsonSignature`)
  that serialize fields in declaration order, as V8 does for object literals.
* Host capabilities and external modules that the core merely calls —
  `validateCode` from the `chipcode` package, `signDigest`/`verifyDigest` from
  `../asymmetric`, the signer's `getOurKey`/`sign`, the decider's
  `shouldPromise`/`shouldCommit`, and base64-SHA-256 hashing from `crypto` —
  are fields of an environment record `Env` and stay abstract: theorems
  quantify over them.
* `throw new Error(...)` is modelled by `Except TrxError`; each distinct
  throw site gets its own `TrxError` constructor.
-/

namespace ChipSync

/-- `Signature` from `record.ts`: `{ type: number; key: string; value: string }`. -/
structure Signature where
  type : Int
  key : String
  value : String
deriving DecidableEq

/- `SignatureType` constants from `record.ts`:
`{ promise: 1, nopromise: -1, commit: 2, nocommit: -2 }`. -/
namespace SignatureType

def promise : Int := 1

def nopromise : Int := -1

def commit : Int := 2

def nocommit : Int := -2

end SignatureType

/-- `Member` from `topology.ts` in the flag shape used by `participant.ts`
(`url?`, `secret?`, `isReferee`, `isParticipant`). -/
structure Member where
  url : Option String
  secret : Option String
  isReferee : Bool
  isParticipant : Bool
deriving DecidableEq

/-- `PublicLink` from `topology.ts`: a directed anonymized adjacency. `terms`
is opaque (`any`) and, like `payload`, is modelled by its JSON serialization. -/
structure PublicLink where
  sourceKey : String
  targetKey : String
  nonce : String
  terms : String
deriving DecidableEq

/-- `Topology` from `topology.ts`: `links: PublicLink[]` and
`members: Record<string, Member>`. A JavaScript object preserves string-key
insertion order, so the member map is modelled as an association list. -/
structure Topology where
  links : List PublicLink
  members : List (String × Member)
deriving DecidableEq

/-- `TrxRecord` from `record.ts`. `payload` holds the JSON serialization of
the opaque payload value. -/
structure TrxRecord where
  transactionCode : String
  sessionCode : String
  payload : String
  topology : Topology
  start : Int
  promisesDue : Int
  promises : List Signature
  commitsDue : Int
  commits : List Signature
deriving DecidableEq

/-- One constructor per distinct `throw new Error(...)` site of
`participant.ts`, plus `capability` for errors raised by host capabilities
(storage / transport / signer / decider). -/
inductive TrxError where
  | transactionCodeMismatch
  | sessionCodeMismatch
  | payloadMismatch
  | topologyMismatch
  | transactionCodeNotRandom
  | sessionCodeNotRandom
  | startInFuture
  | promisesDueTooEarly
  | duplicatePromise
  | promiseNotParticipant
  | invalidPromiseSignature (key : String)
  | duplicateCommit
  | commitNotReferee
  | invalidCommitSignature (key : String)
  | outOfPhaseCommit
  | signatureMutated (key : String)
  | capability (message : String)
deriving DecidableEq

/-- The host environment of a `TrxParticipant`: the capability surfaces the
core calls but does not implement (`TrxParticipantState`, the `chipcode` and
`../asymmetric` modules, `crypto`, `Date.now`). All are opaque to the core. -/
structure Env where
  /-- `validateCode(code, this.state.codeOptions)` from the external
  `chipcode` package, with the configured `codeOptions` baked in. -/
  validateCode : String → Bool
  /-- `this.state.timingOptions.minPromiseTime`. -/
  minPromiseTime : Int
  /-- `this.state.getOurKey(sessionCode)`. -/
  getOurKey : String → String
  /-- `this.state.shouldPromise(record)` (decider capability). -/
  shouldPromise : TrxRecord → Bool
  /-- `this.state.shouldCommit(record)` (decider capability). -/
  shouldCommit : TrxRecord → Bool
  /-- `this.state.sign(digest)` (signer capability). -/
  sign : String → String
  /-- `verifyDigest(key, digest, value)` from `../asymmetric` (a module of
  this repository that is not among the provided sources; per the spec it is
  the signature-verification half of the signer capability). -/
  verifyDigest : String → String → String → Bool
  /-- base64-encoded SHA-256 of a UTF-8 string, i.e. Node's
  `crypto.createHash('sha256')` / `update` / `digest('base64')` pipeline
  applied to the full concatenated stream. -/
  hash : String → String
  /-- `hasPhysical(url)`, referenced by `getReachablePeers` but absent from
  the provided sources. Modelled from the spec: true when the url has a
  physical component, i.e. the member is directly addressable. -/
  hasPhysical : String → Bool
  /-- `Date.now()`. -/
  now : Int

/-- JSON encoding of a JSON string literal (escaping is irrelevant for the
concrete key material used in this development). -/
def jsonQ (s : String) : String := "\"" ++ s ++ "\""

/-- `JSON.stringify` of a `PublicLink`, fields in declaration order. -/
def jsonLink (l : PublicLink) : String :=
  "\x7b\"sourceKey\":" ++ jsonQ l.sourceKey ++ ",\"targetKey\":" ++ jsonQ l.targetKey ++
    ",\"nonce\":" ++ jsonQ l.nonce ++ ",\"terms\":" ++ l.terms ++ "\x7d"

/-- `JSON.stringify` of a `Member`; `undefined` optional fields are omitted,
as `JSON.stringify` does. -/
def jsonMember (m : Member) : String :=
  "\x7b" ++
    (match m.url with
      | some u => "\"url\":" ++ jsonQ u ++ ","
      | none => "") ++
    (match m.secret with
      | some s => "\"secret\":" ++ jsonQ s ++ ","
      | none => "") ++
    "\"isReferee\":" ++ (if m.isReferee then "true" else "false") ++
    ",\"isParticipant\":" ++ (if m.isParticipant then "true" else "false") ++ "\x7d"

/-- `JSON.stringify` of a `Topology` (links, then members, in declaration
order; member keys in insertion order). -/
def jsonTopology (t : Topology) : String :=
  "\x7b\"links\":[" ++ String.intercalate "," (t.links.map jsonLink) ++
    "],\"members\":\x7b" ++
    String.intercalate "," (t.members.map (fun kv => jsonQ kv.1 ++ ":" ++ jsonMember kv.2)) ++
    "\x7d\x7d"

/-- `JSON.stringify(p)` for a `Signature` `p`, fields in declaration order. -/
def jsonSignature (p : Signature) : String :=
  "\x7b\"type\":" ++ toString p.type ++ ",\"key\":" ++ jsonQ p.key ++
    ",\"value\":" ++ jsonQ p.value ++ "\x7d"

/-- `createDigest(trx, additionalData)` from `participant.ts`: the SHA-256
stream is fed `transactionCode`, `sessionCode`, `JSON.stringify(payload)`,
`JSON.stringify(topology)`, `start.toString()`, `promisesDue.toString()`,
`commitsDue.toString()`, then each element of `additionalData`; the digest is
the base64 hash of the accumulated stream. -/
def createDigest (hash : String → String) (trx : TrxRecord) (additionalData : List String) :
    String :=
  let acc := trx.transactionCode
  let acc := acc ++ trx.sessionCode
  let acc := acc ++ trx.payload
  let acc := acc ++ jsonTopology trx.topology
  let acc := acc ++ toString trx.start
  let acc := acc ++ toString trx.promisesDue
  let acc := acc ++ toString trx.commitsDue
  hash (additionalData.foldl (fun a data => a ++ data) acc)

/-- `getPromiseDigest(trx, additionalData)` from `participant.ts`. -/
def getPromiseDigest (hash : String → String) (trx : TrxRecord)
    (additionalData : List String) : String :=
  createDigest hash trx additionalData

/-- `getCommitDigest(trx, additionalData)` from `participant.ts`: prepends the
JSON of each stored promise signature, in stored order, to the caller's
additional data. -/
def getCommitDigest (hash : String → String) (trx : TrxRecord)
    (additionalData : List String) : String :=
  createDigest hash trx (trx.promises.map jsonSignature ++ additionalData)

/-- `candidates.findIndex(s => s.key == p.key)` resolved to the found element:
the first signature in the list carrying the given key. -/
def findByKey (key : String) : List Signature → Option Signature
  | [] => none
  | s :: rest => if s.key == key then some s else findByKey key rest

/-- `candidates.splice(index, 1)` for the index found by `findIndex`: removes
the first signature carrying the given key. -/
def spliceKey (key : String) : List Signature → List Signature
  | [] => []
  | s :: rest => if s.key == key then rest else s :: spliceKey key rest

/-- The `sigs2.forEach` loop of `mergeSignatures`: walks the incoming
signatures, removing from `candidates` each already-present key after
checking that its `(value, type)` did not change. -/
def mergeInto (candidates : List Signature) : List Signature → Except TrxError (List Signature)
  | [] => .ok candidates
  | p :: rest =>
    match findByKey p.key candidates with
    | none => mergeInto candidates rest
    | some m =>
      if m.value ≠ p.value ∨ m.type ≠ p.type then .error (.signatureMutated p.key)
      else mergeInto (spliceKey p.key candidates) rest

/-- `mergeSignatures(sigs1, sigs2)` from `participant.ts`: the surviving
candidates from `sigs1` followed by all of `sigs2`. -/
def mergeSignatures (sigs1 sigs2 : List Signature) : Except TrxError (List Signature) :=
  match mergeInto sigs1 sigs2 with
  | .error e => .error e
  | .ok candidates => .ok (candidates ++ sigs2)

/-- `validateUpdate(prior, record)` from `participant.ts`: compares
`transactionCode`, `sessionCode`, `JSON.stringify(payload)` and
`JSON.stringify(topology)` — and nothing else. -/
def validateUpdate (prior record : TrxRecord) : Except TrxError Unit :=
  if record.transactionCode ≠ prior.transactionCode then .error .transactionCodeMismatch
  else if record.sessionCode ≠ prior.sessionCode then .error .sessionCodeMismatch
  else if record.payload ≠ prior.payload then .error .payloadMismatch
  else if jsonTopology record.topology ≠ jsonTopology prior.topology then
    .error .topologyMismatch
  else .ok ()

/-- `validateNew(record)` from `participant.ts`. -/
def validateNew (env : Env) (record : TrxRecord) : Except TrxError Unit :=
  if env.validateCode record.transactionCode = false then .error .transactionCodeNotRandom
  else if env.validateCode record.sessionCode = false then .error .sessionCodeNotRandom
  else if env.now < record.start then .error .startInFuture
  else if record.promisesDue < record.start + env.minPromiseTime then
    .error .promisesDueTooEarly
  else .ok ()

/-- `validateAndMerge(prior, record)` from `participant.ts`. With a prior, the
spread `{ ...prior, ...record, promises: ..., commits: ... }` takes every
scalar field from `record` and the merged signature lists. -/
def validateAndMerge (env : Env) (prior : Option TrxRecord) (record : TrxRecord) :
    Except TrxError TrxRecord :=
  match prior with
  | none =>
    match validateNew env record with
    | .error e => .error e
    | .ok _ => .ok record
  | some p =>
    match validateUpdate p record with
    | .error e => .error e
    | .ok _ =>
      match mergeSignatures p.promises record.promises with
      | .error e => .error e
      | .ok promises =>
        match mergeSignatures p.commits record.commits with
        | .error e => .error e
        | .ok commits => .ok { record with promises := promises, commits := commits }

/-- `Object.keys(record.topology.members).filter(key => members[key].isParticipant)`. -/
def participantsOf (t : Topology) : List String :=
  (t.members.filter (fun kv => kv.2.isParticipant)).map (fun kv => kv.1)

/-- `Object.keys(record.topology.members).filter(key => members[key].isReferee)`. -/
def refereesOf (t : Topology) : List String :=
  (t.members.filter (fun kv => kv.2.isReferee)).map (fun kv => kv.1)

/-- `ourPromiseNeeded = participants.includes(ourKey) && !record.promises.some(p => p.key === ourKey)`. -/
def ourPromiseNeededOf (env : Env) (record : TrxRecord) : Bool :=
  (participantsOf record.topology).contains (env.getOurKey record.sessionCode) &&
    !(record.promises.any (fun p => p.key == env.getOurKey record.sessionCode))

/-- `fullyPromised = participants.every(p => record.promises.some(s => s.key == p))`. -/
def fullyPromisedOf (record : TrxRecord) : Bool :=
  (participantsOf record.topology).all (fun p => record.promises.any (fun s => s.key == p))

/-- `ourCommitNeeded = referees.includes(ourKey) && !record.commits.some(p => p.key === ourKey)`. -/
def ourCommitNeededOf (env : Env) (record : TrxRecord) : Bool :=
  (refereesOf record.topology).contains (env.getOurKey record.sessionCode) &&
    !(record.commits.any (fun p => p.key == env.getOurKey record.sessionCode))

/-- The `RecordState` interface of `participant.ts`; the four optional fields
are present only on the return paths that set them. -/
structure RecordState where
  ourPromiseNeeded : Bool
  fullyPromised : Option Bool
  ourCommitNeeded : Option Bool
  consensusCommitted : Option Bool
  fullyCommitted : Option Bool
deriving DecidableEq

/-- `getRecordState(record)` from `participant.ts`. `new Set(xs).size` is the
number of distinct elements, i.e. `xs.dedup.length`;
`Math.ceil(referees.length / 2)` on a natural count is `(length + 1) / 2`. -/
def getRecordState (env : Env) (record : TrxRecord) : Except TrxError RecordState :=
  if record.promises.length ≠ (record.promises.map (fun p => p.key)).dedup.length then
    .error .duplicatePromise
  else if record.promises.any (fun p => !((participantsOf record.topology).contains p.key)) then
    .error .promiseNotParticipant
  else
    match record.promises.find?
        (fun p => !(env.verifyDigest p.key (getPromiseDigest env.hash record []) p.value)) with
    | some p => .error (.invalidPromiseSignature p.key)
    | none =>
      if ourPromiseNeededOf env record then
        if record.commits.length ≠ 0 then .error .outOfPhaseCommit
        else .ok ⟨true, none, none, none, none⟩
      else
        if fullyPromisedOf record then
          if record.commits.length ≠ (record.commits.map (fun p => p.key)).dedup.length then
            .error .duplicateCommit
          else if record.commits.any
              (fun p => !((refereesOf record.topology).contains p.key)) then
            .error .commitNotReferee
          else
            match record.commits.find?
                (fun p => !(env.verifyDigest p.key (getCommitDigest env.hash record []) p.value)) with
            | some p => .error (.invalidCommitSignature p.key)
            | none =>
              .ok ⟨false, some true, some (ourCommitNeededOf env record),
                some (decide (((refereesOf record.topology).length + 1) / 2 ≤
                  record.commits.length)),
                some (decide (record.commits.length = (refereesOf record.topology).length))⟩
        else
          if record.commits.length ≠ 0 then .error .outOfPhaseCommit
          else .ok ⟨false, some false, none, none, none⟩

/-- The signature literal appended by `addOurPromise`:
`{ type: sigType, key: ourKey, value: await this.state.sign(digest) }` with
`sigType = shouldPromise(record) && record.promisesDue <= Date.now() ? promise : nopromise`
and `digest = getPromiseDigest(record, [sigType.toString()])`. -/
def ourPromiseSig (env : Env) (record : TrxRecord) : Signature :=
  let sigType :=
    if env.shouldPromise record && decide (record.promisesDue ≤ env.now) then
      SignatureType.promise
    else SignatureType.nopromise
  ⟨sigType, env.getOurKey record.sessionCode,
    env.sign (getPromiseDigest env.hash record [toString sigType])⟩

/-- `addOurPromise(record)` from `participant.ts`: a new record with our
promise signature appended. -/
def addOurPromise (env : Env) (record : TrxRecord) : TrxRecord :=
  { record with promises := record.promises ++ [ourPromiseSig env record] }

/-- The signature literal appended by `addOurCommit`, with
`sigType = shouldCommit(record) && record.commitsDue <= Date.now() ? commit : nocommit`
and `digest = getCommitDigest(record, [sigType.toString()])`. -/
def ourCommitSig (env : Env) (record : TrxRecord) : Signature :=
  let sigType :=
    if env.shouldCommit record && decide (record.commitsDue ≤ env.now) then
      SignatureType.commit
    else SignatureType.nocommit
  ⟨sigType, env.getOurKey record.sessionCode,
    env.sign (getCommitDigest env.hash record [toString sigType])⟩

/-- `addOurCommit(record)` from `participant.ts`. -/
def addOurCommit (env : Env) (record : TrxRecord) : TrxRecord :=
  { record with commits := record.commits ++ [ourCommitSig env record] }

/-- The record-producing core of `update(record, fromKey?)`: validate and
merge against the prior, compute the record state, and append our promise or
our commit — JavaScript truthiness reads an absent `ourCommitNeeded` as
false. The result is the record handed to `pushModified`. -/
def updateModified (env : Env) (prior : Option TrxRecord) (record : TrxRecord) :
    Except TrxError TrxRecord :=
  match validateAndMerge env prior record with
  | .error e => .error e
  | .ok merged =>
    match getRecordState env merged with
    | .error e => .error e
    | .ok recordState =>
      if recordState.ourPromiseNeeded then .ok (addOurPromise env merged)
      else if recordState.ourCommitNeeded.getD false then .ok (addOurCommit env merged)
      else .ok merged

/-- Modelled from the spec: `recordStale(peerRecord, record)` is referenced by
`pushModified` but its definition is not among the provided sources. The spec
defines stale as "fewer signatures in at least one of promises/commits". -/
def recordStale (peerRecord record : TrxRecord) : Bool :=
  peerRecord.promises.length < record.promises.length ||
    peerRecord.commits.length < record.commits.length

/-- `getReachablePeers(record)` from `participant.ts`: member keys whose url
has a physical component, concatenated with the far endpoint of every link
incident to our key. -/
def getReachablePeers (env : Env) (record : TrxRecord) : List String :=
  (record.topology.members.filter (fun kv =>
      match kv.2.url with
      | some u => env.hasPhysical u
      | none => false)).map (fun kv => kv.1) ++
    ((record.topology.links.filter (fun l =>
        l.sourceKey == env.getOurKey record.sessionCode ||
          l.targetKey == env.getOurKey record.sessionCode)).map (fun l =>
      if l.sourceKey == env.getOurKey record.sessionCode then l.targetKey else l.sourceKey))

/-- `pushModified(record)` from `participant.ts`: for each reachable peer,
push unless the stored peer record is present and not stale; the per-peer
promises are gathered by `Promise.all`, which rejects when any push rejects.
(The source reads `this.getReachablePeers(record)` without `await`; the peer
list is modelled as the awaited value.) `getPeerRecord` and `pushPeerRecord`
are the storage/transport capabilities. -/
def pushModified (env : Env) (getPeerRecord : String → String → Option TrxRecord)
    (pushPeerRecord : String → TrxRecord → Except TrxError Unit) (record : TrxRecord) :
    Except TrxError Unit :=
  let results := (getReachablePeers env record).map (fun key =>
    match getPeerRecord key record.transactionCode with
    | none => pushPeerRecord key record
    | some peerRecord =>
      if recordStale peerRecord record then pushPeerRecord key record else .ok ())
  match results.find? (fun r => match r with | .error _ => true | .ok _ => false) with
  | some e => e
  | none => .ok ()

instance {ε α : Type} [DecidableEq ε] [DecidableEq α] : DecidableEq (Except ε α)
  | .error e1, .error e2 =>
    if h : e1 = e2 then .isTrue (by rw [h]) else .isFalse (by intro hc; cases hc; exact h rfl)
  | .error _, .ok _ => .isFalse (by intro hc; cases hc)
  | .ok _, .error _ => .isFalse (by intro hc; cases hc)
  | .ok a1, .ok a2 =>
    if h : a1 = a2 then .isTrue (by rw [h]) else .isFalse (by intro hc; cases hc; exact h rfl)

/-- The externally observable outcome of one `update` call: the value or
error its returned promise settles with, and — separately — the settlement of
the promise returned by the `pushModified` call, which the source discards
(`this.pushModified(modified);` is not awaited, on every branch). -/
structure UpdateOutcome where
  returned : Except TrxError Unit
  floatingPush : Option (Except TrxError Unit)
deriving DecidableEq

/-- `update(record, fromKey?)` from `participant.ts`. `store` is the
storage's `getPeerRecord` view keyed by peer and transaction code; the
initial `setPeerRecord(fromKey, record)` write is reflected in the view the
pushes observe. Because the `pushModified(modified)` call is not awaited, its
settlement lands in `floatingPush` and never in `returned`; errors thrown up
to and including `getRecordState`/signing are logged and re-raised
(`returned = .error e`). -/
def update (env : Env) (store : String → String → Option TrxRecord)
    (pushPeerRecord : String → TrxRecord → Except TrxError Unit)
    (prior : Option TrxRecord) (fromKey : Option String) (record : TrxRecord) :
    UpdateOutcome :=
  let store2 := fun key tc =>
    match fromKey with
    | some fk => if key = fk ∧ tc = record.transactionCode then some record else store key tc
    | none => store key tc
  match updateModified env prior record with
  | .error e => ⟨.error e, none⟩
  | .ok modified => ⟨.ok (), some (pushModified env store2 pushPeerRecord modified)⟩

/-- `true` exactly on `Except.error`. -/
def isErr {α : Type} (x : Except TrxError α) : Bool :=
  match x with
  | .error _ => true
  | .ok _ => false

/-- The keys of a signature list, in order. -/
def keysOf (l : List Signature) : List String := l.map (fun s => s.key)

/-- Closed form of a successful `mergeSignatures a b`: the entries of `a`
whose key does not occur in `b`, followed by all of `b`. -/
def mergeResult (a b : List Signature) : List Signature :=
  a.filter (fun s => !((keysOf b).contains s.key)) ++ b

/-! ### Concrete instances

Small host environments and records used to evaluate the embedded code on
the scenarios of the spec (two participants `P1` `P2`, with `P1` the single
referee, matching scenario S1; and a three-referee topology for the consensus
threshold). The toy signer marks signatures as `"sig" ++ key` and the
verifier checks that mark, so every signature a node produces verifies under
any digest — digest collisions are irrelevant to the control flow under test. -/

/-- S1 topology: `P1` participant and referee, `P2` participant only. -/
def topoS1 : Topology :=
  ⟨[], [("P1", ⟨none, none, true, true⟩), ("P2", ⟨none, none, false, true⟩)]⟩

/-- Host environment for node `P1` at time 10. -/
def envS1 : Env where
  validateCode := fun _ => true
  minPromiseTime := 0
  getOurKey := fun _ => "P1"
  shouldPromise := fun _ => true
  shouldCommit := fun _ => true
  sign := fun _ => "sigP1"
  verifyDigest := fun key _ value => value == "sig" ++ key
  hash := fun _ => "H"
  hasPhysical := fun _ => false
  now := 10

/-- The record `P1` receives in S1: `P2` has promised, nobody has committed. -/
def recS1 : TrxRecord :=
  ⟨"T", "S", "0", topoS1, 0, 1, [⟨1, "P2", "sigP2"⟩], 5, []⟩

/-- `recS1` after `P1`'s promise is appended. -/
def r1S1 : TrxRecord :=
  { recS1 with promises := [⟨1, "P2", "sigP2"⟩, ⟨1, "P1", "sigP1"⟩] }

/-- `r1S1` after `P1`'s commit is appended. -/
def r2S1 : TrxRecord :=
  { r1S1 with commits := [⟨2, "P1", "sigP1"⟩] }

/-- `envS1` at the earlier instant 5, before `promisesDue` of `recC2`. -/
def envC2 : Env := { envS1 with now := 5 }

/-- A fresh record whose `promisesDue = 10` has not yet been reached at
`envC2.now = 5`. -/
def recC2 : TrxRecord := ⟨"T", "S", "0", topoS1, 0, 10, [], 5, []⟩

/-- A stored prior with `start = 0`. -/
def priorC1 : TrxRecord := ⟨"T", "S", "0", topoS1, 0, 1, [], 5, []⟩

/-- An incoming record equal to `priorC1` except for `start`. -/
def recC1 : TrxRecord := { priorC1 with start := 1 }

/-- An incoming record equal to `priorC1` except for `payload`. -/
def recC1b : TrxRecord := { priorC1 with payload := "1" }

/-- S1 topology plus one link between `P1` and `P2` (the gossip edge). -/
def topoC4 : Topology :=
  ⟨[⟨"P1", "P2", "n", "0"⟩],
    [("P1", ⟨none, none, true, true⟩), ("P2", ⟨none, none, false, true⟩)]⟩

/-- A fully promised, fully committed record on `topoC4`: no signature of
ours is needed, so `update` pushes it unchanged. -/
def recC4 : TrxRecord :=
  ⟨"T", "S", "0", topoC4, 0, 1, [⟨1, "P1", "sigP1"⟩, ⟨1, "P2", "sigP2"⟩], 5,
    [⟨2, "P1", "sigP1"⟩]⟩

/-- A host whose signature check accepts anything and whose key `P0` plays no
role in the topology. -/
def envW5 : Env := { envS1 with getOurKey := fun _ => "P0", verifyDigest := fun _ _ _ => true }

/-- A record with a commit present while participant `P2`'s promise is
missing. -/
def recW5 : TrxRecord :=
  ⟨"T", "S", "0", topoS1, 0, 1, [⟨1, "P1", "v1"⟩], 5, [⟨2, "P1", "w1"⟩]⟩

/-- Three members, each participant and referee. -/
def topoW7 : Topology :=
  ⟨[], [("P1", ⟨none, none, true, true⟩), ("P2", ⟨none, none, true, true⟩),
    ("P3", ⟨none, none, true, true⟩)]⟩

/-- Node `P1` with an accept-all signature check. -/
def envW7 : Env := { envS1 with verifyDigest := fun _ _ _ => true }

/-- All three promises present, two of three commits present. -/
def recW7 : TrxRecord :=
  ⟨"T", "S", "0", topoW7, 0, 1, [⟨1, "P1", "a"⟩, ⟨1, "P2", "b"⟩, ⟨1, "P3", "c"⟩], 5,
    [⟨2, "P1", "d"⟩, ⟨2, "P2", "e"⟩]⟩

/-- A signature list repeating one key with identical `(type, value)`. -/
def dupA : List Signature := [⟨1, "k", "v"⟩, ⟨1, "k", "v"⟩]

/-- First merge input with keys `A`, `K`. -/
def sigsA6 : List Signature := [⟨1, "A", "va"⟩, ⟨1, "K", "vk"⟩]

/-- Second merge input with keys `K`, `B`, agreeing with `sigsA6` on `K`. -/
def sigsB6 : List Signature := [⟨1, "K", "vk"⟩, ⟨2, "B", "vb"⟩]


/-! ### General lemmas -/

theorem contains_iff (l : List String) (a : String) : l.contains a = true ↔ a ∈ l := by
  rw [List.elem_iff]

theorem foldl_append_eq (l : List String) : ∀ acc : String,
    l.foldl (fun a data => a ++ data) acc = acc ++ String.join l := by
  induction l with
  | nil => intro acc; simp [String.join, String.append_empty]
  | cons x xs ih =>
    intro acc
    have h2 : String.join (x :: xs) = x ++ String.join xs := by
      have h0 : String.join (x :: xs) = xs.foldl (fun a data => a ++ data) ("" ++ x) := rfl
      have h3 : ("" ++ x : String) = x := rfl
      rw [h0, ih, h3]
    have h1 : (x :: xs).foldl (fun a data => a ++ data) acc =
        xs.foldl (fun a data => a ++ data) (acc ++ x) := rfl
    rw [h1, ih, h2, String.append_assoc]

theorem join_append (l1 l2 : List String) :
    String.join (l1 ++ l2) = String.join l1 ++ String.join l2 := by
  have h : String.join (l1 ++ l2) = l2.foldl (fun a data => a ++ data) (String.join l1) := by
    have h0 : String.join (l1 ++ l2) = (l1 ++ l2).foldl (fun a data => a ++ data) "" := rfl
    rw [h0, List.foldl_append]
    have h1 : String.join l1 = l1.foldl (fun a data => a ++ data) "" := rfl
    rw [h1]
  rw [h, foldl_append_eq]

theorem mem_keysOf {l : List Signature} {k : String} :
    k ∈ keysOf l ↔ ∃ s ∈ l, s.key = k := by
  simp [keysOf]

theorem findByKey_eq_none {key : String} {l : List Signature} :
    findByKey key l = none ↔ ∀ s ∈ l, s.key ≠ key := by
  induction l with
  | nil => simp [findByKey]
  | cons s rest ih => by_cases hs : s.key = key <;> simp [findByKey, hs, ih]

theorem findByKey_mem {key : String} {l : List Signature} {m : Signature}
    (h : findByKey key l = some m) : m ∈ l ∧ m.key = key := by
  induction l with
  | nil => exact absurd h (by simp [findByKey])
  | cons s rest ih =>
    by_cases hs : s.key = key
    · rw [findByKey, if_pos (by simp [hs])] at h
      injection h with h2
      subst h2
      exact ⟨List.mem_cons_self _ _, hs⟩
    · rw [findByKey, if_neg (by simp [hs])] at h
      rcases ih h with ⟨h1, h2⟩
      exact ⟨List.mem_cons_of_mem s h1, h2⟩

theorem spliceKey_eq_filter {key : String} {l : List Signature}
    (h : (keysOf l).Nodup) : spliceKey key l = l.filter (fun s => !(s.key == key)) := by
  induction l with
  | nil => rfl
  | cons a rest ih =>
    simp only [keysOf, List.map_cons, List.nodup_cons] at h
    by_cases hak : a.key = key
    · rw [spliceKey, if_pos (by simp [hak]), List.filter_cons_of_neg (by simp [hak])]
      symm
      apply List.filter_eq_self.mpr
      intro t ht
      have htk : t.key ≠ key := by
        intro heq
        exact h.1 (List.mem_map.mpr ⟨t, ht, heq.trans hak.symm⟩)
      simp [htk]
    · rw [spliceKey, if_neg (by simp [hak]), List.filter_cons_of_pos (by simp [hak]), ih h.2]

theorem keysOf_filter_sublist (l : List Signature) (f : Signature → Bool) :
    (keysOf (l.filter f)).Sublist (keysOf l) := by
  unfold keysOf
  exact List.Sublist.map (fun s => s.key) (List.filter_sublist l)

theorem nodup_keys_unique {l : List Signature} (h : (keysOf l).Nodup)
    {s t : Signature} (hs : s ∈ l) (ht : t ∈ l) (hk : s.key = t.key) : s = t :=
  List.inj_on_of_nodup_map h hs ht hk

theorem mergeInto_eq_ok (b : List Signature) : ∀ a : List Signature,
    (keysOf a).Nodup → (keysOf b).Nodup →
    (∀ s ∈ a, ∀ t ∈ b, s.key = t.key → s = t) →
    mergeInto a b = .ok (a.filter (fun s => !((keysOf b).contains s.key))) := by
  induction b with
  | nil =>
    intro a _ _ _
    have hfa : a.filter (fun s => !((keysOf ([] : List Signature)).contains s.key)) = a := by
      apply List.filter_eq_self.mpr
      intro t ht
      rfl
    simp only [mergeInto, hfa]
  | cons p rest ih =>
    intro a ha hb hc
    have hbrest : (keysOf rest).Nodup := by
      simp only [keysOf, List.map_cons, List.nodup_cons] at hb
      exact hb.2
    rcases hfind : findByKey p.key a with _ | q
    · have hnomem : ∀ s ∈ a, s.key ≠ p.key := findByKey_eq_none.mp hfind
      simp only [mergeInto, hfind]
      rw [ih a ha hbrest (fun s hs t ht hk => hc s hs t (List.mem_cons_of_mem p ht) hk)]
      congr 1
      apply List.filter_congr
      intro s hs
      have hcons : (keysOf (p :: rest)).contains s.key =
          ((s.key == p.key) || (keysOf rest).contains s.key) := rfl
      have hne : (s.key == p.key) = false := by simp [hnomem s hs]
      rw [hcons, hne, Bool.false_or]
    · rcases findByKey_mem hfind with ⟨hqa, hqk⟩
      have hqp : q = p := hc q hqa p (List.mem_cons_self p rest) hqk
      subst hqp
      simp only [mergeInto, hfind]
      rw [if_neg (by simp)]
      rw [spliceKey_eq_filter ha]
      have hfn : (keysOf (a.filter (fun s => !(s.key == q.key)))).Nodup :=
        (keysOf_filter_sublist a _).nodup ha
      have hfc : ∀ s ∈ a.filter (fun s => !(s.key == q.key)), ∀ t ∈ rest,
          s.key = t.key → s = t :=
        fun s hs t ht hk =>
          hc s (List.mem_of_mem_filter hs) t (List.mem_cons_of_mem q ht) hk
      rw [ih _ hfn hbrest hfc]
      rw [List.filter_filter]
      congr 1
      apply List.filter_congr
      intro s hs
      have hcons : (keysOf (q :: rest)).contains s.key =
          ((s.key == q.key) || (keysOf rest).contains s.key) := rfl
      rw [hcons, Bool.not_or, Bool.and_comm]

theorem mergeInto_ok_compat (b : List Signature) : ∀ a m : List Signature,
    (keysOf a).Nodup → (keysOf b).Nodup → mergeInto a b = .ok m →
    ∀ s ∈ a, ∀ t ∈ b, s.key = t.key → s = t := by
  induction b with
  | nil =>
    intro a m _ _ _ s hs t ht
    exact absurd ht (List.not_mem_nil t)
  | cons p rest ih =>
    intro a m ha hb h s hs t ht hk
    have hbrest : (keysOf rest).Nodup := by
      simp only [keysOf, List.map_cons, List.nodup_cons] at hb
      exact hb.2
    have hpnotin : p.key ∉ keysOf rest := by
      simp only [keysOf, List.map_cons, List.nodup_cons] at hb
      exact hb.1
    rcases hfind : findByKey p.key a with _ | q
    · simp only [mergeInto, hfind] at h
      rcases List.mem_cons.mp ht with rfl | ht2
      · exact absurd hk (findByKey_eq_none.mp hfind s hs)
      · exact ih a m ha hbrest h s hs t ht2 hk
    · simp only [mergeInto, hfind] at h
      split_ifs at h with hcond
      push_neg at hcond
      rcases findByKey_mem hfind with ⟨hqa, hqk⟩
      have hqp : q = p := by
        rcases hcond with ⟨hv, hty⟩
        cases q
        cases p
        simp_all
      subst hqp
      have hsn : (keysOf (spliceKey q.key a)).Nodup := by
        rw [spliceKey_eq_filter ha]
        exact (keysOf_filter_sublist a _).nodup ha
      rcases List.mem_cons.mp ht with rfl | ht2
      · exact nodup_keys_unique ha hs hqa hk
      · by_cases hsp : s.key = q.key
        · exact absurd (List.mem_map.mpr ⟨t, ht2, by rw [← hk, hsp]⟩) hpnotin
        · have hs' : s ∈ spliceKey q.key a := by
            rw [spliceKey_eq_filter ha]
            exact List.mem_filter.mpr ⟨hs, by simp [hsp]⟩
          exact ih (spliceKey q.key a) m hsn hbrest h s hs' t ht2 hk

theorem mergeSignatures_eq_ok {a b : List Signature} (ha : (keysOf a).Nodup)
    (hb : (keysOf b).Nodup) (hc : ∀ s ∈ a, ∀ t ∈ b, s.key = t.key → s = t) :
    mergeSignatures a b = .ok (mergeResult a b) := by
  unfold mergeSignatures mergeResult
  rw [mergeInto_eq_ok b a ha hb hc]

theorem mem_mergeResult {a b : List Signature}
    (hc : ∀ s ∈ a, ∀ t ∈ b, s.key = t.key → s = t) (s : Signature) :
    s ∈ mergeResult a b ↔ s ∈ a ∨ s ∈ b := by
  unfold mergeResult
  rw [List.mem_append]
  constructor
  · rintro (hf | hb2)
    · exact Or.inl (List.mem_of_mem_filter hf)
    · exact Or.inr hb2
  · rintro (hsa | hsb)
    · by_cases hkb : (keysOf b).contains s.key = true
      · right
        rcases mem_keysOf.mp ((contains_iff _ _).mp hkb) with ⟨t, ht, htk⟩
        rw [hc s hsa t ht htk.symm]
        exact ht
      · left
        exact List.mem_filter.mpr ⟨hsa, by simp_all⟩
    · exact Or.inr hsb

theorem keysOf_append (a b : List Signature) : keysOf (a ++ b) = keysOf a ++ keysOf b := by
  simp [keysOf]

theorem mergeResult_keys_nodup {a b : List Signature} (ha : (keysOf a).Nodup)
    (hb : (keysOf b).Nodup) : (keysOf (mergeResult a b)).Nodup := by
  unfold mergeResult
  rw [keysOf_append]
  apply List.Nodup.append
  · exact (keysOf_filter_sublist a _).nodup ha
  · exact hb
  · intro k hkf hkb
    rcases mem_keysOf.mp hkf with ⟨s, hsf, hsk⟩
    rcases List.mem_filter.mp hsf with ⟨hsa, hpred⟩
    rw [← hsk] at hkb
    rw [(contains_iff _ _).mpr hkb] at hpred
    exact Bool.noConfusion hpred

theorem mergeSignatures_error_of_mismatch {a b : List Signature}
    (ha : (keysOf a).Nodup) (hb : (keysOf b).Nodup)
    (hmm : ∃ s ∈ a, ∃ t ∈ b, s.key = t.key ∧ s ≠ t) :
    isErr (mergeSignatures a b) = true := by
  rcases hmm with ⟨s, hs, t, ht, hk, hne⟩
  unfold mergeSignatures
  cases hmi : mergeInto a b with
  | error e => simp [isErr, hmi]
  | ok m => exact absurd (mergeInto_ok_compat b a m ha hb hmi s hs t ht hk) hne

/-! ### Claim theorems -/

/-- C9 (confirmed): the commit digest is the hash of the UTF-8 concatenation
of, in this exact order, `transactionCode`, `sessionCode`, the payload JSON,
the topology JSON, decimal `start`, decimal `promisesDue`, decimal
`commitsDue`, the JSON of each promise signature in stored order, then each
caller extra; the promise digest is the same construction with only the
extras appended. `hash` abstracts base64-SHA-256 over the concatenated
stream. -/
theorem digest_field_order (hash : String → String) (trx : TrxRecord) (extras : List String) :
    getCommitDigest hash trx extras =
      hash (trx.transactionCode ++ trx.sessionCode ++ trx.payload ++
        jsonTopology trx.topology ++ toString trx.start ++ toString trx.promisesDue ++
        toString trx.commitsDue ++ String.join (trx.promises.map jsonSignature) ++
        String.join extras) ∧
    getPromiseDigest hash trx extras =
      hash (trx.transactionCode ++ trx.sessionCode ++ trx.payload ++
        jsonTopology trx.topology ++ toString trx.start ++ toString trx.promisesDue ++
        toString trx.commitsDue ++ String.join extras) := by
  simp only [getCommitDigest, getPromiseDigest, createDigest]
  rw [foldl_append_eq, foldl_append_eq, join_append]
  constructor <;> simp [String.append_assoc]

/-- C10 (confirmed): on a record with no promise signatures the commit digest
and the promise digest coincide for every additional-data list — there is no
domain separation between the two digest kinds. -/
theorem commit_digest_no_domain_separation (hash : String → String) (trx : TrxRecord)
    (extras : List String) (h : trx.promises = []) :
    getCommitDigest hash trx extras = getPromiseDigest hash trx extras := by
  unfold getCommitDigest getPromiseDigest
  rw [h]
  rfl

/-- Witness for C10 at a concrete record with empty `promises`. -/
theorem commit_digest_no_domain_separation_witness :
    getCommitDigest envS1.hash recC2 ["x"] = getPromiseDigest envS1.hash recC2 ["x"] :=
  commit_digest_no_domain_separation envS1.hash recC2 ["x"] rfl

/-- C8 (confirmed): `validateNew` accepts exactly when both codes pass the
configured randomness check, `start ≤ now`, and
`promisesDue ≥ start + minPromiseTime`; it raises an error exactly otherwise,
and on acceptance `validateAndMerge` with no prior returns the incoming
record unchanged. -/
theorem validate_new_iff (env : Env) (record : TrxRecord) :
    (validateNew env record = .ok () ↔
      (env.validateCode record.transactionCode = true ∧
        env.validateCode record.sessionCode = true ∧ record.start ≤ env.now ∧
        record.start + env.minPromiseTime ≤ record.promisesDue)) ∧
    (isErr (validateNew env record) = true ↔
      ¬(env.validateCode record.transactionCode = true ∧
        env.validateCode record.sessionCode = true ∧ record.start ≤ env.now ∧
        record.start + env.minPromiseTime ≤ record.promisesDue)) ∧
    (validateAndMerge env none record = .ok record ↔ validateNew env record = .ok ()) := by
  simp only [validateAndMerge, validateNew, isErr]
  split_ifs with h1 h2 h3 h4 <;> simp_all

/-- C1 (corrected) counterexample: a prior and an incoming record for the
same `transactionCode` that differ on `start` do not make the update fail —
the merged record is produced, carrying the incoming `start`. -/
theorem start_mismatch_not_fatal :
    validateAndMerge envS1 (some priorC1) recC1 = .ok recC1 ∧
    recC1.transactionCode = priorC1.transactionCode ∧ recC1.start ≠ priorC1.start := by
  exact ⟨by decide, rfl, by decide⟩

/-- C1 (corrected): a mismatch between prior and incoming on
`transactionCode`, `sessionCode`, `payload` (by serialization) or `topology`
(by serialization) is fatal to the update; `start`, `promisesDue` and
`commitsDue` are not compared, and a successfully merged record always takes
those three fields from the incoming record. -/
theorem immutable_field_validation (env : Env) (prior record : TrxRecord) :
    ((record.transactionCode ≠ prior.transactionCode ∨
        record.sessionCode ≠ prior.sessionCode ∨ record.payload ≠ prior.payload ∨
        jsonTopology record.topology ≠ jsonTopology prior.topology) →
      isErr (validateAndMerge env (some prior) record) = true) ∧
    (∀ merged, validateAndMerge env (some prior) record = .ok merged →
      merged.transactionCode = record.transactionCode ∧
        merged.sessionCode = record.sessionCode ∧ merged.payload = record.payload ∧
        merged.topology = record.topology ∧ merged.start = record.start ∧
        merged.promisesDue = record.promisesDue ∧ merged.commitsDue = record.commitsDue) := by
  constructor
  · intro h
    simp only [validateAndMerge, validateUpdate, isErr]
    split_ifs <;> simp_all
  · intro merged hm
    simp only [validateAndMerge, validateUpdate] at hm
    split_ifs at hm <;> try exact Except.noConfusion hm
    split at hm
    · exact Except.noConfusion hm
    · split at hm
      · exact Except.noConfusion hm
      · split at hm
        · exact Except.noConfusion hm
        · cases hm
          exact ⟨rfl, rfl, rfl, rfl, rfl, rfl, rfl⟩

/-- Witness for C1: a payload mismatch is rejected. -/
theorem immutable_field_validation_witness :
    isErr (validateAndMerge envS1 (some priorC1) recC1b) = true :=
  (immutable_field_validation envS1 priorC1 recC1b).1 (Or.inr (Or.inr (Or.inl (by decide))))

/-- C2 (corrected) counterexample: with an approving decider and the current
time still before `promisesDue` (`now = 5 ≤ 10 = promisesDue`), the update
that needs our promise signs `nopromise` (type `-1`), not a positive
promise. -/
theorem promise_before_deadline_signs_nopromise :
    envC2.shouldPromise recC2 = true ∧ envC2.now ≤ recC2.promisesDue ∧
    updateModified envC2 none recC2 = .ok { recC2 with promises := [⟨-1, "P1", "sigP1"⟩] } ∧
    (ourPromiseSig envC2 recC2).type = SignatureType.nopromise := by
  exact ⟨rfl, by decide, by decide, by decide⟩

/-- C2 (corrected): when the record state says our promise is needed, the
update appends exactly one promise signature and never errors; the signature
is the positive `promise` type iff `shouldPromise(merged)` holds and
`promisesDue ≤ now` (the deadline has been reached), and otherwise it is
`nopromise`. -/
theorem promise_deadline_direction (env : Env) (prior : Option TrxRecord)
    (record merged : TrxRecord) (st : RecordState)
    (hm : validateAndMerge env prior record = .ok merged)
    (hs : getRecordState env merged = .ok st)
    (hp : st.ourPromiseNeeded = true) :
    updateModified env prior record = .ok (addOurPromise env merged) ∧
    (addOurPromise env merged).promises = merged.promises ++ [ourPromiseSig env merged] ∧
    ((ourPromiseSig env merged).type = SignatureType.promise ↔
      (env.shouldPromise merged = true ∧ merged.promisesDue ≤ env.now)) ∧
    ((ourPromiseSig env merged).type = SignatureType.promise ∨
      (ourPromiseSig env merged).type = SignatureType.nopromise) := by
  refine ⟨?_, rfl, ?_, ?_⟩
  · simp [updateModified, hm, hs, hp]
  · unfold ourPromiseSig
    split_ifs with h
    · simp only [Bool.and_eq_true, decide_eq_true_eq] at h
      simp [h]
    · simp only [Bool.and_eq_true, decide_eq_true_eq, not_and_or] at h
      constructor
      · intro habs
        simp [SignatureType.nopromise, SignatureType.promise] at habs
      · intro hc
        rcases h with h | h
        · exact absurd hc.1 h
        · exact absurd hc.2 h
  · unfold ourPromiseSig
    split_ifs <;> simp

/-- Witness for C2 on the S1 scenario: `P1` receives `recS1`, its promise is
needed, and with `promisesDue = 1 ≤ 10 = now` and an approving decider the
appended signature is the positive promise. -/
theorem promise_deadline_direction_witness :
    updateModified envS1 none recS1 = .ok (addOurPromise envS1 recS1) ∧
    (addOurPromise envS1 recS1).promises = recS1.promises ++ [ourPromiseSig envS1 recS1] ∧
    ((ourPromiseSig envS1 recS1).type = SignatureType.promise ↔
      (envS1.shouldPromise recS1 = true ∧ recS1.promisesDue ≤ envS1.now)) ∧
    ((ourPromiseSig envS1 recS1).type = SignatureType.promise ∨
      (ourPromiseSig envS1 recS1).type = SignatureType.nopromise) :=
  promise_deadline_direction envS1 none recS1 recS1 ⟨true, none, none, none, none⟩
    (by decide) (by decide) rfl

/-- C3 (corrected) counterexample: in scenario S1 the single `update` call on
`P1` that completes the promise set appends only `P1`'s promise; the record
it produces has no commit signatures, and its state is not `fullyCommitted`
and not `consensusCommitted`. -/
theorem s1_single_call_no_commit :
    updateModified envS1 none recS1 = .ok r1S1 ∧ r1S1.commits = [] ∧
    getRecordState envS1 r1S1 = .ok ⟨false, some true, some true, some false, some false⟩ := by
  exact ⟨by decide, rfl, by decide⟩

/-- C3 (corrected): in scenario S1 the promise-completing call appends only
`P1`'s promise, leaving a `fullyPromised` record whose state says
`ourCommitNeeded`; it takes a second `update` call on that record to append
`P1`'s commit, after which the record is `fullyCommitted` and
`consensusCommitted`. -/
theorem s1_second_call_commits :
    updateModified envS1 none recS1 = .ok r1S1 ∧
    getRecordState envS1 r1S1 = .ok ⟨false, some true, some true, some false, some false⟩ ∧
    updateModified envS1 (some r1S1) r1S1 = .ok r2S1 ∧
    r2S1.commits = [⟨2, "P1", "sigP1"⟩] ∧
    getRecordState envS1 r2S1 = .ok ⟨false, some true, some false, some true, some true⟩ := by
  exact ⟨by decide, by decide, by decide, rfl, by decide⟩

/-- C6 (corrected) counterexample: `mergeSignatures` applied to a list that
itself repeats a key (with identical type and value) and the empty list
succeeds but returns that key twice — the claim's "each key of the union
exactly once" fails for arbitrary signature lists. -/
theorem merge_signatures_duplicate_key_cex :
    mergeSignatures dupA [] = .ok dupA ∧ "k" ∈ keysOf dupA ∧
    (keysOf dupA).count "k" ≠ 1 := by
  exact ⟨by decide, by decide, by decide⟩

/-- C6 (corrected): for signature lists whose own keys are duplicate-free (as
record invariant 2 guarantees for stored promise/commit lists), if every key
occurring in both lists carries identical `(type, value)` on each side then
the merge succeeds, its keys are exactly the union of the input keys with no
key repeated, every merged signature comes verbatim from one of the inputs,
and merging in either order yields the same set of signatures; if some shared
key carries a different type or value, the merge raises an error. -/
theorem merge_signatures_union (a b : List Signature)
    (ha : (keysOf a).Nodup) (hb : (keysOf b).Nodup) :
    ((∀ s ∈ a, ∀ t ∈ b, s.key = t.key → s = t) →
      mergeSignatures a b = .ok (mergeResult a b) ∧
      mergeSignatures b a = .ok (mergeResult b a) ∧
      (keysOf (mergeResult a b)).Nodup ∧
      (∀ k, k ∈ keysOf (mergeResult a b) ↔ k ∈ keysOf a ∨ k ∈ keysOf b) ∧
      (∀ s ∈ mergeResult a b, s ∈ a ∨ s ∈ b) ∧
      (∀ s, s ∈ mergeResult a b ↔ s ∈ mergeResult b a)) ∧
    ((∃ s ∈ a, ∃ t ∈ b, s.key = t.key ∧ s ≠ t) → isErr (mergeSignatures a b) = true) := by
  constructor
  · intro hc
    have hc2 : ∀ t ∈ b, ∀ s ∈ a, t.key = s.key → t = s :=
      fun t ht s hs hk => (hc s hs t ht hk.symm).symm
    refine ⟨mergeSignatures_eq_ok ha hb hc, mergeSignatures_eq_ok hb ha hc2,
      mergeResult_keys_nodup ha hb, ?_, ?_, ?_⟩
    · intro k
      rw [mem_keysOf, mem_keysOf, mem_keysOf]
      constructor
      · rintro ⟨s, hsm, hsk⟩
        rcases (mem_mergeResult hc s).mp hsm with h | h
        · exact Or.inl ⟨s, h, hsk⟩
        · exact Or.inr ⟨s, h, hsk⟩
      · rintro (⟨s, hsm, hsk⟩ | ⟨s, hsm, hsk⟩)
        · exact ⟨s, (mem_mergeResult hc s).mpr (Or.inl hsm), hsk⟩
        · exact ⟨s, (mem_mergeResult hc s).mpr (Or.inr hsm), hsk⟩
    · exact fun s hs => (mem_mergeResult hc s).mp hs
    · intro s
      rw [mem_mergeResult hc s, mem_mergeResult hc2 s]
      exact or_comm
  · exact mergeSignatures_error_of_mismatch ha hb

/-- Witness for C6 on concrete compatible lists sharing the key `K`. -/
theorem merge_signatures_union_witness :
    mergeSignatures sigsA6 sigsB6 = .ok (mergeResult sigsA6 sigsB6) ∧
    mergeSignatures sigsB6 sigsA6 = .ok (mergeResult sigsB6 sigsA6) :=
  ⟨((merge_signatures_union sigsA6 sigsB6 (by decide) (by decide)).1 (by decide)).1,
    ((merge_signatures_union sigsA6 sigsB6 (by decide) (by decide)).1 (by decide)).2.1⟩

/-- C7 (confirmed): whenever `getRecordState` succeeds on a fully promised
record, `consensusCommitted` holds iff the commit count is at least
`⌈|referees|/2⌉` (i.e. `(|referees| + 1) / 2`), and `fullyCommitted` holds
iff the commit count equals `|referees|`, the referees being the topology
members flagged `isReferee`. -/
theorem consensus_threshold (env : Env) (record : TrxRecord) (st : RecordState)
    (h : getRecordState env record = .ok st) (hfp : st.fullyPromised = some true) :
    st.consensusCommitted =
      some (decide (((refereesOf record.topology).length + 1) / 2 ≤ record.commits.length)) ∧
    st.fullyCommitted =
      some (decide (record.commits.length = (refereesOf record.topology).length)) := by
  simp only [getRecordState] at h
  split at h
  · exact Except.noConfusion h
  split at h
  · exact Except.noConfusion h
  split at h
  · exact Except.noConfusion h
  split at h
  · split at h
    · exact Except.noConfusion h
    · cases h
      exact absurd hfp (by simp)
  · split at h
    · split at h
      · exact Except.noConfusion h
      split at h
      · exact Except.noConfusion h
      split at h
      · exact Except.noConfusion h
      · cases h
        exact ⟨rfl, rfl⟩
    · split at h
      · exact Except.noConfusion h
      · cases h
        exact absurd hfp (by simp)

/-- Witness for C7 on the three-referee record `recW7` (2 of 3 commits):
consensus is reached, full commitment is not. -/
theorem consensus_threshold_witness :
    (⟨false, some true, some false, some true, some false⟩ : RecordState).consensusCommitted =
      some (decide (((refereesOf recW7.topology).length + 1) / 2 ≤ recW7.commits.length)) ∧
    (⟨false, some true, some false, some true, some false⟩ : RecordState).fullyCommitted =
      some (decide (recW7.commits.length = (refereesOf recW7.topology).length)) :=
  consensus_threshold envW7 recW7 ⟨false, some true, some false, some true, some false⟩
    (by decide) rfl

/-- C5 (confirmed): a successful `getRecordState` with any commit signature
present implies every participant key appears among the promise keys; and on
a record whose promise-phase checks pass but where a participant promise is
missing while commits are present, `getRecordState` raises the
out-of-phase-commit error. -/
theorem no_commits_without_full_promises (env : Env) (record : TrxRecord) :
    (∀ st, getRecordState env record = .ok st → record.commits ≠ [] →
      ∀ k ∈ participantsOf record.topology, k ∈ record.promises.map (fun s => s.key)) ∧
    ((record.promises.length = (record.promises.map (fun s => s.key)).dedup.length) →
      (∀ p ∈ record.promises, p.key ∈ participantsOf record.topology) →
      (∀ p ∈ record.promises,
        env.verifyDigest p.key (getPromiseDigest env.hash record []) p.value = true) →
      record.commits ≠ [] →
      (∃ k ∈ participantsOf record.topology, k ∉ record.promises.map (fun s => s.key)) →
      getRecordState env record = .error .outOfPhaseCommit) := by
  constructor
  · intro st h hc k hk
    simp only [getRecordState] at h
    split at h
    · exact Except.noConfusion h
    split at h
    · exact Except.noConfusion h
    split at h
    · exact Except.noConfusion h
    split at h
    · split at h
      · exact Except.noConfusion h
      · next hz =>
          exact absurd (List.length_eq_zero.mp (not_ne_iff.mp hz)) hc
    · split at h
      · next hfull =>
          have hall := (List.all_eq_true.mp hfull) k hk
          rcases List.any_eq_true.mp hall with ⟨s, hs, hsk⟩
          exact List.mem_map.mpr ⟨s, hs, beq_iff_eq.mp hsk⟩
      · split at h
        · exact Except.noConfusion h
        · next hz =>
            exact absurd (List.length_eq_zero.mp (not_ne_iff.mp hz)) hc
  · intro h1 h2 h3 hc hex
    rcases hex with ⟨k, hk, hnk⟩
    have c1 : ¬(record.promises.length ≠
        (record.promises.map (fun s => s.key)).dedup.length) := not_ne_iff.mpr h1
    have c2 : ¬(record.promises.any
        (fun p => !((participantsOf record.topology).contains p.key)) = true) := by
      intro hany
      rcases List.any_eq_true.mp hany with ⟨p, hp, hne⟩
      have hcon : (participantsOf record.topology).contains p.key = false := by
        simpa using hne
      rw [(contains_iff (participantsOf record.topology) p.key).mpr (h2 p hp)] at hcon
      exact Bool.noConfusion hcon
    have hfind : record.promises.find?
        (fun p => !(env.verifyDigest p.key (getPromiseDigest env.hash record []) p.value)) =
        none := by
      apply List.find?_eq_none.mpr
      intro p hp
      simp [h3 p hp]
    have hfp : fullyPromisedOf record = false := by
      apply Bool.eq_false_iff.mpr
      intro hall
      have hone := (List.all_eq_true.mp hall) k hk
      rcases List.any_eq_true.mp hone with ⟨s, hs, hsk⟩
      exact hnk (List.mem_map.mpr ⟨s, hs, beq_iff_eq.mp hsk⟩)
    have hlen : record.commits.length ≠ 0 := by
      rw [Ne, List.length_eq_zero]
      exact hc
    cases hopn : ourPromiseNeededOf env record
    · simp [getRecordState, c1, c2, hfind, hopn, hfp, hlen]
      exact h2
    · simp [getRecordState, c1, c2, hfind, hopn, hlen]
      exact h2

/-- Witness for C5: on `recW5` a commit is present while participant `P2`'s
promise is missing, and the promise-phase checks pass, so the state
computation fails with the out-of-phase-commit error. -/
theorem no_commits_without_full_promises_witness :
    getRecordState envW5 recW5 = .error .outOfPhaseCommit :=
  (no_commits_without_full_promises envW5 recW5).2 (by decide) (by decide) (by decide)
    (by decide) ⟨"P2", by decide, by decide⟩

/-- C4 (code_bug): evaluation at the failing input. The source never awaits
`this.pushModified(modified)`, so `update` resolves successfully
(`returned = .ok ()`) while the discarded `pushModified` promise settles with
the transport's push rejection — the error never reaches `update`'s caller. -/
theorem push_error_discarded :
    update envS1 (fun _ _ => none) (fun _ _ => .error (.capability "push rejected")) none none
      recC4 = ⟨.ok (), some (.error (.capability "push rejected"))⟩ := by
  decide

end ChipSync
